import Mathlib

/-!
# Character LCD driver (`Car/lcd.cpp`)

The driver talks to an HD44780-style controller over a 4-bit bus.  Every routine
is straight-line code over the output port registers: it sets or clears a control
pin, rewrites `PORTC`, or busy-waits.  The embedding below passes the machine
state explicitly.  A state holds the port registers and the log of every
primitive operation executed so far, with a marker at each entry of
`lcd_send_nyble` and `lcd_send_byte`, so that call sequences, delays and
intermediate register values can all be read off one run.

`pins.h`, `register.h` and `lcd.h` are not part of the sources.  The pin map, the
delay constants and the instruction opcodes they declare are the fields of
`Config`; the results hold for every configuration unless a hypothesis says
otherwise.
-/

namespace Lcd

/-! ## Machine model -/

/-- An 8-bit output port register: `PORTC`, which carries the data bus on bits
2..5, or one of the other ports of the device. -/
inductive Port where
  | C
  | other (id : Nat)
  deriving DecidableEq

/-- A pin is one bit of one output port register. -/
structure Pin where
  port : Port
  bit : Nat
  deriving DecidableEq

/-- Contents of the output port registers. -/
abbrev Regs := Port → Nat

/-- The names `lcd.cpp` takes from `pins.h` and `lcd.h`.  Delays are kept as
rationals because `_delay_ms` and `_delay_us` take a `double`. -/
structure Config where
  P_RS : Pin
  P_EN : Pin
  LCD_SEND_DELAY : ℚ
  LCD_START_DELAY : ℚ
  LCD_4BIT_DELAY : ℚ
  LCD_4BIT_DELAY_FINAL : ℚ
  LCD_CMD_DELAY : ℚ
  LCD_CLEAR : Nat
  LCD_HOME : Nat
  LCD_ENTRY_MODE : Nat
  LCD_INC_CURSOR : Nat
  LCD_DISPLAY_CONTROL : Nat
  LCD_DISPLAY_ON : Nat
  LCD_FUNCTION_SET : Nat
  LCD_DISPLAY_LINES : Nat
  LCD_SET_DDRAM : Nat
  LCD_SHIFT : Nat
  LCD_SHIFT_RIGHT : Nat

/-- One primitive step of the driver.  The two `call_` constructors are markers
written on entry to `lcd_send_nyble` and `lcd_send_byte`; they carry the argument
as the callee receives it (a `uint8_t`) and leave the registers alone. -/
inductive Op where
  | set (p : Pin)
  | reset (p : Pin)
  | portc_and (mask : Nat)
  | portc_or (v : Nat)
  | delay_us (t : ℚ)
  | delay_ms (t : ℚ)
  | call_send_nyble (data : Nat)
  | call_send_byte (data : Nat)
  deriving DecidableEq

/-- Store an 8-bit value into a port register. -/
def writePort (r : Regs) (p : Port) (v : Nat) : Regs :=
  fun q => if q = p then v % 256 else r q

/-- Effect of one primitive step on the port registers. -/
def Op.apply : Op → Regs → Regs
  | .set p, r => writePort r p.port (r p.port ||| (1 <<< p.bit))
  | .reset p, r => writePort r p.port (r p.port &&& (255 ^^^ ((1 <<< p.bit) % 256)))
  | .portc_and mask, r => writePort r Port.C (r Port.C &&& mask)
  | .portc_or v, r => writePort r Port.C (r Port.C ||| v)
  | .delay_us _, r => r
  | .delay_ms _, r => r
  | .call_send_nyble _, r => r
  | .call_send_byte _, r => r

/-- Machine state: the port registers and the log of the steps taken. -/
structure Machine where
  regs : Regs
  log : List Op

/-- A machine with the given registers and an empty log. -/
def Machine.start (r : Regs) : Machine := ⟨r, []⟩

/-- Execute one primitive step and record it. -/
def emit (o : Op) (m : Machine) : Machine :=
  ⟨o.apply m.regs, m.log ++ [o]⟩

/-- Modelled from the spec: `register.h` is not part of the sources.  `SET(P)`
asserts pin `P`, that is, sets its bit in its port register. -/
def SET (p : Pin) (m : Machine) : Machine := emit (.set p) m

/-- Modelled from the spec: `register.h` is not part of the sources.  `RESET(P)`
deasserts pin `P`, that is, clears its bit in its port register. -/
def RESET (p : Pin) (m : Machine) : Machine := emit (.reset p) m

/-- Busy-wait of `t` microseconds (`util/delay.h`). -/
def _delay_us (t : ℚ) (m : Machine) : Machine := emit (.delay_us t) m

/-- Busy-wait of `t` milliseconds (`util/delay.h`). -/
def _delay_ms (t : ℚ) (m : Machine) : Machine := emit (.delay_ms t) m

/-! ## The driver -/

/-- `lcd_pulse_enable`: toggle the Enable pin, then hold. -/
def lcd_pulse_enable (cfg : Config) (m : Machine) : Machine :=
  let m := RESET cfg.P_EN m
  let m := SET cfg.P_EN m
  let m := RESET cfg.P_EN m
  _delay_us cfg.LCD_SEND_DELAY m

/-- `lcd_send_nyble (uint8_t data)`: `PORTC &= 0b11000011; PORTC |= (data << 2);`
then pulse Enable.  The argument is converted to `uint8_t` on entry; `data << 2`
is computed in `int` and the store to `PORTC` keeps its low 8 bits. -/
def lcd_send_nyble (cfg : Config) (data : Nat) (m : Machine) : Machine :=
  let data := data % 256
  let m := emit (.call_send_nyble data) m
  let m := emit (.portc_and 0b11000011) m
  let m := emit (.portc_or (data <<< 2)) m
  lcd_pulse_enable cfg m

/-- `lcd_send_byte (uint8_t data)`: `lcd_send_nyble(data >> 4); lcd_send_nyble(data);`. -/
def lcd_send_byte (cfg : Config) (data : Nat) (m : Machine) : Machine :=
  let data := data % 256
  let m := emit (.call_send_byte data) m
  let m := lcd_send_nyble cfg (data >>> 4) m
  lcd_send_nyble cfg data m

/-- `lcd_clear`. -/
def lcd_clear (cfg : Config) (m : Machine) : Machine :=
  let m := RESET cfg.P_RS m
  let m := lcd_send_byte cfg cfg.LCD_CLEAR m
  _delay_ms cfg.LCD_CMD_DELAY m

/-- `lcd_home`. -/
def lcd_home (cfg : Config) (m : Machine) : Machine :=
  let m := RESET cfg.P_RS m
  let m := lcd_send_byte cfg cfg.LCD_HOME m
  _delay_ms cfg.LCD_CMD_DELAY m

/-- `lcd_init`. -/
def lcd_init (cfg : Config) (m : Machine) : Machine :=
  let m := RESET cfg.P_RS m
  let m := RESET cfg.P_EN m
  let m := _delay_ms cfg.LCD_START_DELAY m
  let m := lcd_send_nyble cfg 0x3 m
  let m := _delay_ms cfg.LCD_4BIT_DELAY m
  let m := lcd_send_nyble cfg 0x3 m
  let m := _delay_us cfg.LCD_4BIT_DELAY m
  let m := lcd_send_nyble cfg 0x3 m
  let m := _delay_ms cfg.LCD_4BIT_DELAY_FINAL m
  let m := lcd_send_nyble cfg 0x2 m
  let m := lcd_send_byte cfg (cfg.LCD_FUNCTION_SET ||| cfg.LCD_DISPLAY_LINES) m
  let m := lcd_send_byte cfg (cfg.LCD_DISPLAY_CONTROL ||| cfg.LCD_DISPLAY_ON) m
  let m := lcd_send_byte cfg (cfg.LCD_ENTRY_MODE ||| cfg.LCD_INC_CURSOR) m
  let m := lcd_clear cfg m
  lcd_home cfg m

/-- `lcd_set_cursor (uint8_t addr)`. -/
def lcd_set_cursor (cfg : Config) (addr : Nat) (m : Machine) : Machine :=
  let addr := addr % 256
  let m := RESET cfg.P_RS m
  lcd_send_byte cfg (cfg.LCD_SET_DDRAM ||| addr) m

/-- `lcd_cursor_left`. -/
def lcd_cursor_left (cfg : Config) (m : Machine) : Machine :=
  let m := RESET cfg.P_RS m
  lcd_send_byte cfg cfg.LCD_SHIFT m

/-- The loop of `lcd_cursor_down`: `for (uint8_t i = 0; i < 40; ++i)`, entered
with the current value of `i`. -/
def lcd_cursor_down_loop (cfg : Config) (i : Nat) (m : Machine) : Machine :=
  if i < 40 then
    lcd_cursor_down_loop cfg ((i + 1) % 256)
      (lcd_send_byte cfg (cfg.LCD_SHIFT ||| cfg.LCD_SHIFT_RIGHT) m)
  else m
termination_by 40 - i
decreasing_by omega

/-- `lcd_cursor_down`. -/
def lcd_cursor_down (cfg : Config) (m : Machine) : Machine :=
  let m := RESET cfg.P_RS m
  lcd_cursor_down_loop cfg 0 m

/-- `lcd_putc (char c)`. -/
def lcd_putc (cfg : Config) (c : Nat) (m : Machine) : Machine :=
  let m := SET cfg.P_RS m
  lcd_send_byte cfg c m

/-- The loop of `lcd_print (const char * s)`: `for ( ; *s != 0; ++s)`.  The list
is the memory from `s` onwards, one entry per `char`, each given by its 8-bit
code; running off its end without meeting a terminator has no defined result. -/
def lcd_print_loop (cfg : Config) : List Nat → Machine → Option Machine
  | [], _ => none
  | c :: rest, m =>
    if c ≠ 0 then lcd_print_loop cfg rest (lcd_send_byte cfg c m) else some m

/-- `lcd_print (const char * s)`. -/
def lcd_print (cfg : Config) (s : List Nat) (m : Machine) : Option Machine :=
  let m := SET cfg.P_RS m
  lcd_print_loop cfg s m

/-- `lcd_print (float f)`: `char buf[10]; dtostrf(f,5,2,buf); lcd_print(buf);`.
The C library's `dtostrf` is a parameter: `dtostrf f width prec` is the text it
writes, to which it appends the terminator.  A text that does not fit the ten
bytes of `buf` together with its terminator overruns the buffer, which has no
defined result. -/
def lcd_print_float {F : Type} (cfg : Config) (dtostrf : F → Int → Nat → List Nat)
    (f : F) (m : Machine) : Option Machine :=
  let buf := dtostrf f 5 2 ++ [0]
  if buf.length ≤ 10 then lcd_print cfg buf m else none

/-! ## The C library's number formatting -/

/-- A finite floating-point value, `(-1)^neg * num / den` with `den` a power of
two. -/
structure FloatVal where
  neg : Bool
  num : Nat
  den : Nat

/-- The `float` nearest to 3.14159, bit pattern `0x40490FD0`: 823549 / 2^18. -/
def f3_14159 : FloatVal := ⟨false, 823549, 262144⟩

/-- ASCII codes of the decimal digits of `n`. -/
def asciiDigits (n : Nat) : List Nat := (Nat.toDigits 10 n).map Char.toNat

/-- Modelled from the spec: `dtostrf` belongs to the C library, not to the
sources.  The spec describes the call as fixed-width decimal formatting with
`prec` digits after the decimal point in a field of at least `width`
characters; the library pads a shorter text with blanks, on the left for a
positive width and on the right for a negative one, and rounds the value to
`prec` decimals. -/
def dtostrf (f : FloatVal) (width : Int) (prec : Nat) : List Nat :=
  let scaled := (2 * f.num * 10 ^ prec + f.den) / (2 * f.den)
  let whole := asciiDigits (scaled / 10 ^ prec)
  let frac := asciiDigits (scaled % 10 ^ prec)
  let frac := List.replicate (prec - frac.length) 0x30 ++ frac
  let sign := if f.neg then [0x2D] else []
  let body := sign ++ whole ++ (if prec = 0 then [] else 0x2E :: frac)
  let pad := List.replicate (width.natAbs - body.length) 0x20
  if 0 ≤ width then pad ++ body else body ++ pad

/-! ## Reading a run -/

/-- Arguments of the `lcd_send_nyble` calls in a log, in order. -/
def nybleCalls : List Op → List Nat
  | [] => []
  | .call_send_nyble d :: rest => d :: nybleCalls rest
  | _ :: rest => nybleCalls rest

/-- Arguments of the `lcd_send_byte` calls in a log, in order. -/
def byteCalls : List Op → List Nat
  | [] => []
  | .call_send_byte d :: rest => d :: byteCalls rest
  | _ :: rest => byteCalls rest

/-- Whether a step is an entry of `lcd_send_byte`. -/
def isByteCall : Op → Bool
  | .call_send_byte _ => true
  | _ => false

/-- The part of a log that comes before the first `lcd_send_byte` call. -/
def beforeFirstByte (l : List Op) : List Op := l.takeWhile (fun o => !isByteCall o)

/-- Duration of one step in microseconds. -/
def Op.micros : Op → ℚ
  | .delay_us t => t
  | .delay_ms t => 1000 * t
  | _ => 0

/-- Total time a log spends in delays, in microseconds. -/
def totalDelay (l : List Op) : ℚ := (l.map Op.micros).sum

/-- Time spent in delays from the head of a log up to the next entry of
`lcd_send_nyble` or `lcd_send_byte` (or the end of the log), in microseconds. -/
def delayUntilCall : List Op → ℚ
  | [] => 0
  | .call_send_nyble _ :: _ => 0
  | .call_send_byte _ :: _ => 0
  | o :: rest => o.micros + delayUntilCall rest

/-- For each `lcd_send_nyble` call of a log, in order, the delay that follows it:
the time spent in delays between its entry and the next call. -/
def nybleGaps : List Op → List ℚ
  | [] => []
  | .call_send_nyble _ :: rest => delayUntilCall rest :: nybleGaps rest
  | _ :: rest => nybleGaps rest

/-- Whether a step is a `SET` or `RESET` of pin `p`. -/
def touches (p : Pin) : Op → Bool
  | .set q => decide (q = p)
  | .reset q => decide (q = p)
  | _ => false

/-- The register contents after each step of a log, starting from `r`. -/
def states (r : Regs) : List Op → List Regs
  | [] => []
  | o :: rest => o.apply r :: states (o.apply r) rest

/-- Register contents after all steps of a log. -/
def finalRegs (r : Regs) (l : List Op) : Regs := l.foldl (fun r o => o.apply r) r

/-- Logic level of a pin. -/
def pinLevel (r : Regs) (p : Pin) : Bool := (r p.port).testBit p.bit

/-- The value on the data bus: bits 2..5 of `PORTC`. -/
def dataBus (r : Regs) : Nat := (r Port.C >>> 2) % 16

/-- A pin that is one of the data-bus bits of `PORTC`. -/
def onBus (p : Pin) : Prop := p.port = Port.C ∧ 2 ≤ p.bit ∧ p.bit ≤ 5

instance (p : Pin) : Decidable (onBus p) := by unfold onBus; infer_instance

/-- The store `PORTC |= (data << 2)` of `lcd_send_nyble(data)` writes a one into
the bit of pin `p`. -/
def reaches (data : Nat) (p : Pin) : Prop :=
  p.port = Port.C ∧ (((data % 256) <<< 2) % 256).testBit p.bit = true

instance (data : Nat) (p : Pin) : Decidable (reaches data p) := by
  unfold reaches; infer_instance

/-- Steps of `lcd_pulse_enable`. -/
def pulse_ops (cfg : Config) : List Op :=
  [.reset cfg.P_EN, .set cfg.P_EN, .reset cfg.P_EN, .delay_us cfg.LCD_SEND_DELAY]

/-- Steps of `lcd_send_nyble` on an argument already converted to `uint8_t`. -/
def nyble_ops (cfg : Config) (data : Nat) : List Op :=
  [.call_send_nyble data, .portc_and 0b11000011, .portc_or (data <<< 2)] ++ pulse_ops cfg

/-- Steps of `lcd_send_byte` on an argument already converted to `uint8_t`. -/
def byte_ops (cfg : Config) (data : Nat) : List Op :=
  .call_send_byte data :: (nyble_ops cfg ((data >>> 4) % 256) ++ nyble_ops cfg data)

/-- Steps of `lcd_clear`. -/
def clear_ops (cfg : Config) : List Op :=
  .reset cfg.P_RS :: (byte_ops cfg (cfg.LCD_CLEAR % 256) ++ [.delay_ms cfg.LCD_CMD_DELAY])

/-- Steps of `lcd_home`. -/
def home_ops (cfg : Config) : List Op :=
  .reset cfg.P_RS :: (byte_ops cfg (cfg.LCD_HOME % 256) ++ [.delay_ms cfg.LCD_CMD_DELAY])

/-- Steps of `lcd_init`. -/
def init_ops (cfg : Config) : List Op :=
  [.reset cfg.P_RS, .reset cfg.P_EN, .delay_ms cfg.LCD_START_DELAY]
    ++ nyble_ops cfg 0x3 ++ [.delay_ms cfg.LCD_4BIT_DELAY]
    ++ nyble_ops cfg 0x3 ++ [.delay_us cfg.LCD_4BIT_DELAY]
    ++ nyble_ops cfg 0x3 ++ [.delay_ms cfg.LCD_4BIT_DELAY_FINAL]
    ++ nyble_ops cfg 0x2
    ++ byte_ops cfg ((cfg.LCD_FUNCTION_SET ||| cfg.LCD_DISPLAY_LINES) % 256)
    ++ byte_ops cfg ((cfg.LCD_DISPLAY_CONTROL ||| cfg.LCD_DISPLAY_ON) % 256)
    ++ byte_ops cfg ((cfg.LCD_ENTRY_MODE ||| cfg.LCD_INC_CURSOR) % 256)
    ++ clear_ops cfg ++ home_ops cfg

/-- A step that cannot move pin `q` away from level `lvl`: it is not a `SET` or
`RESET` of `q`, a mask applied to `PORTC` does not clear a high `q`, and a value
merged into `PORTC` does not raise a low `q`. -/
def keepsLevel (q : Pin) (lvl : Bool) : Op → Prop
  | .set p => p ≠ q
  | .reset p => p ≠ q
  | .portc_and k => q.port = Port.C → lvl = true → k.testBit q.bit = true
  | .portc_or k => q.port = Port.C → lvl = false → (k % 256).testBit q.bit = false
  | _ => True

/-- The characters of a C string: the entries before its first terminator. -/
def cstr (s : List Nat) : List Nat := s.takeWhile (fun c => c != 0)

/-- Execute a list of steps, recording each. -/
def run (ops : List Op) (m : Machine) : Machine :=
  ⟨finalRegs m.regs ops, m.log ++ ops⟩

/-- All opcode constants are 8-bit values. -/
def Config.byteOpcodes (cfg : Config) : Prop :=
  cfg.LCD_CLEAR < 256 ∧ cfg.LCD_HOME < 256 ∧ cfg.LCD_ENTRY_MODE < 256 ∧
  cfg.LCD_INC_CURSOR < 256 ∧ cfg.LCD_DISPLAY_CONTROL < 256 ∧ cfg.LCD_DISPLAY_ON < 256 ∧
  cfg.LCD_FUNCTION_SET < 256 ∧ cfg.LCD_DISPLAY_LINES < 256 ∧ cfg.LCD_SET_DDRAM < 256 ∧
  cfg.LCD_SHIFT < 256 ∧ cfg.LCD_SHIFT_RIGHT < 256

instance (cfg : Config) : Decidable cfg.byteOpcodes := by
  unfold Config.byteOpcodes; infer_instance

/-- A sample configuration: Register-Select on `PORTC` bit 0, Enable on `PORTC`
bit 1, the opcodes of the HD44780 instruction set, and delays of 50 ms at
power-on, 5 for the mode switch, 1 ms after it, 100 us per nyble and 2 ms per
command. -/
def sampleConfig : Config where
  P_RS := ⟨Port.C, 0⟩
  P_EN := ⟨Port.C, 1⟩
  LCD_SEND_DELAY := 100
  LCD_START_DELAY := 50
  LCD_4BIT_DELAY := 5
  LCD_4BIT_DELAY_FINAL := 1
  LCD_CMD_DELAY := 2
  LCD_CLEAR := 0x01
  LCD_HOME := 0x02
  LCD_ENTRY_MODE := 0x04
  LCD_INC_CURSOR := 0x02
  LCD_DISPLAY_CONTROL := 0x08
  LCD_DISPLAY_ON := 0x04
  LCD_FUNCTION_SET := 0x20
  LCD_DISPLAY_LINES := 0x08
  LCD_SET_DDRAM := 0x80
  LCD_SHIFT := 0x10
  LCD_SHIFT_RIGHT := 0x04

/-- The same configuration with the two control pins on another port. -/
def offPortConfig : Config :=
  { sampleConfig with P_RS := ⟨Port.other 0, 0⟩, P_EN := ⟨Port.other 0, 1⟩ }

/-- The sample configuration with Enable moved to bit `e` of `PORTC`. -/
def enableOn (e : Nat) : Config :=
  { sampleConfig with P_EN := ⟨Port.C, e⟩ }

/-- All port registers hold `v`. -/
def allPorts (v : Nat) : Regs := fun _ => v

/-! ## Basic facts about runs -/

theorem run_nil (m : Machine) : run [] m = m := by
  simp [run, finalRegs]

theorem run_cons (o : Op) (ops : List Op) (m : Machine) :
    run (o :: ops) m = run ops (emit o m) := by
  simp [run, finalRegs, emit]

theorem run_append (a b : List Op) (m : Machine) :
    run (a ++ b) m = run b (run a m) := by
  simp [run, finalRegs]

theorem run_log (ops : List Op) (m : Machine) : (run ops m).log = m.log ++ ops := rfl

theorem run_regs (ops : List Op) (m : Machine) :
    (run ops m).regs = finalRegs m.regs ops := rfl

theorem emit_eq_run (o : Op) (m : Machine) : emit o m = run [o] m := by
  simp [run_cons, run_nil]

theorem lcd_pulse_enable_eq (cfg : Config) (m : Machine) :
    lcd_pulse_enable cfg m = run (pulse_ops cfg) m := by
  simp [lcd_pulse_enable, pulse_ops, RESET, SET, _delay_us, run_cons, run_nil]

theorem lcd_send_nyble_eq (cfg : Config) (data : Nat) (m : Machine) :
    lcd_send_nyble cfg data m = run (nyble_ops cfg (data % 256)) m := by
  simp [lcd_send_nyble, nyble_ops, lcd_pulse_enable_eq, run_cons]

theorem lcd_send_byte_eq (cfg : Config) (data : Nat) (m : Machine) :
    lcd_send_byte cfg data m = run (byte_ops cfg (data % 256)) m := by
  simp [lcd_send_byte, byte_ops, lcd_send_nyble_eq, run_cons, run_append]

/-! ## Bits of the port registers -/

theorem testBit_mod_256 (x i : Nat) :
    (x % 256).testBit i = (decide (i < 8) && x.testBit i) :=
  Nat.testBit_mod_two_pow x 8 i

theorem testBit_255 (i : Nat) : (255 : Nat).testBit i = decide (i < 8) :=
  Nat.testBit_two_pow_sub_one 8 i

theorem testBit_one_shl (b i : Nat) : (1 <<< b).testBit i = decide (b = i) := by
  rw [Nat.one_shiftLeft, Nat.testBit_two_pow]

theorem testBit_mask (i : Nat) :
    (0b11000011 : Nat).testBit i = decide (i = 0 ∨ i = 1 ∨ i = 6 ∨ i = 7) := by
  by_cases h : i < 8
  · interval_cases i <;> decide
  · have h8 : (195 : Nat) < 2 ^ i :=
      lt_of_lt_of_le (by norm_num) (Nat.pow_le_pow_right (by norm_num) (Nat.le_of_not_lt h))
    rw [Nat.testBit_lt_two_pow h8]
    symm
    simp only [decide_eq_false_iff_not]
    omega

theorem apply_set_testBit (r : Regs) (p : Pin) (pt : Port) (i : Nat) :
    ((Op.set p).apply r pt).testBit i =
      if pt = p.port then (decide (i < 8) && ((r pt).testBit i || decide (p.bit = i)))
      else (r pt).testBit i := by
  by_cases h : pt = p.port
  · subst h
    simp only [Op.apply, writePort, if_true, testBit_mod_256, Nat.testBit_or, testBit_one_shl]
  · simp [Op.apply, writePort, h]

theorem apply_reset_testBit (r : Regs) (p : Pin) (pt : Port) (i : Nat) :
    ((Op.reset p).apply r pt).testBit i =
      if pt = p.port then (decide (i < 8) && ((r pt).testBit i && !decide (p.bit = i)))
      else (r pt).testBit i := by
  by_cases h : pt = p.port
  · subst h
    simp only [Op.apply, writePort, if_true, testBit_mod_256, Nat.testBit_and, Nat.testBit_xor,
      testBit_255, testBit_one_shl]
    by_cases h8 : i < 8 <;> by_cases hb : p.bit = i <;> simp [h8, hb]
  · simp [Op.apply, writePort, h]

theorem apply_and_testBit (r : Regs) (k : Nat) (pt : Port) (i : Nat) :
    ((Op.portc_and k).apply r pt).testBit i =
      if pt = Port.C then (decide (i < 8) && ((r pt).testBit i && k.testBit i))
      else (r pt).testBit i := by
  by_cases h : pt = Port.C
  · subst h
    simp [Op.apply, writePort, testBit_mod_256]
  · simp [Op.apply, writePort, h]

theorem apply_or_testBit (r : Regs) (k : Nat) (pt : Port) (i : Nat) :
    ((Op.portc_or k).apply r pt).testBit i =
      if pt = Port.C then (decide (i < 8) && ((r pt).testBit i || k.testBit i))
      else (r pt).testBit i := by
  by_cases h : pt = Port.C
  · subst h
    simp [Op.apply, writePort, testBit_mod_256]
  · simp [Op.apply, writePort, h]

theorem apply_delay_us (t : ℚ) (r : Regs) : (Op.delay_us t).apply r = r := rfl

theorem apply_delay_ms (t : ℚ) (r : Regs) : (Op.delay_ms t).apply r = r := rfl

theorem apply_call_nyble (d : Nat) (r : Regs) : (Op.call_send_nyble d).apply r = r := rfl

theorem apply_call_byte (d : Nat) (r : Regs) : (Op.call_send_byte d).apply r = r := rfl

/-- Bit `i` of `PORTC` after `lcd_send_nyble(data)`. -/
theorem nyble_portc_testBit (cfg : Config) (data : Nat) (r : Regs) (i : Nat) :
    (finalRegs r (nyble_ops cfg data) Port.C).testBit i =
      (decide (i < 8) && (((r Port.C).testBit i && (0b11000011 : Nat).testBit i)
          || (data <<< 2).testBit i)
        && !decide (cfg.P_EN = ⟨Port.C, i⟩)) := by
  simp only [finalRegs, nyble_ops, pulse_ops, List.cons_append, List.nil_append, List.foldl_cons,
    List.foldl_nil, apply_reset_testBit, apply_set_testBit, apply_or_testBit, apply_and_testBit,
    apply_delay_us, apply_call_nyble, if_true]
  generalize cfg.P_EN = en
  obtain ⟨pe, be⟩ := en
  by_cases hp : Port.C = pe
  · subst hp
    by_cases h8 : i < 8 <;> by_cases hb : be = i <;> simp [h8, hb]
  · have hne : ¬ (pe = Port.C) := fun h => hp h.symm
    by_cases h8 : i < 8 <;> simp [hp, hne, h8]

theorem finalRegs_append (r : Regs) (a b : List Op) :
    finalRegs r (a ++ b) = finalRegs (finalRegs r a) b := by
  simp [finalRegs]

theorem finalRegs_cons (r : Regs) (o : Op) (l : List Op) :
    finalRegs r (o :: l) = finalRegs (o.apply r) l := rfl

theorem shl2_testBit (d i : Nat) :
    (d <<< 2).testBit i = (decide (2 ≤ i) && d.testBit (i - 2)) := by
  simp [Nat.testBit_shiftLeft]

theorem testBit_of_lt_16 {v i : Nat} (hv : v < 16) (hi : 4 ≤ i) : v.testBit i = false :=
  Nat.testBit_lt_two_pow (lt_of_lt_of_le hv (Nat.pow_le_pow_right (by norm_num) hi : 2 ^ 4 ≤ 2 ^ i))

theorem and_15_eq_mod (b : Nat) : b &&& 0xF = b % 16 := by
  apply Nat.eq_of_testBit_eq
  intro j
  have h15 : (15 : Nat).testBit j = decide (j < 4) := Nat.testBit_two_pow_sub_one 4 j
  have h16 : (b % 16).testBit j = (decide (j < 4) && b.testBit j) := Nat.testBit_mod_two_pow b 4 j
  rw [Nat.testBit_and, h15, h16, Bool.and_comm]

/-- The Enable pin is low after `lcd_pulse_enable`. -/
theorem pulse_level_en (cfg : Config) (r : Regs) :
    pinLevel (finalRegs r (pulse_ops cfg)) cfg.P_EN = false := by
  simp [pinLevel, finalRegs, pulse_ops, apply_reset_testBit, apply_delay_us]

/-- The Enable pin is low after `lcd_send_nyble`. -/
theorem nyble_level_en (cfg : Config) (data : Nat) (r : Regs) :
    pinLevel (finalRegs r (nyble_ops cfg data)) cfg.P_EN = false := by
  unfold nyble_ops
  rw [finalRegs_append]
  exact pulse_level_en cfg _

/-- The data bus after `lcd_send_nyble(data)` carries the low four bits of
`data`, when Enable is not wired to a bus bit. -/
theorem nyble_dataBus (cfg : Config) (data : Nat) (r : Regs) (hen : ¬ onBus cfg.P_EN) :
    dataBus (finalRegs r (nyble_ops cfg data)) = data % 16 := by
  unfold dataBus
  apply Nat.eq_of_testBit_eq
  intro j
  have hl : ((finalRegs r (nyble_ops cfg data) Port.C >>> 2) % 16).testBit j
      = (decide (j < 4) && (finalRegs r (nyble_ops cfg data) Port.C).testBit (2 + j)) := by
    rw [show (16 : Nat) = 2 ^ 4 from rfl, Nat.testBit_mod_two_pow, Nat.testBit_shiftRight]
  have hr : (data % 16).testBit j = (decide (j < 4) && data.testBit j) :=
    Nat.testBit_mod_two_pow data 4 j
  rw [hl, hr, nyble_portc_testBit, testBit_mask, shl2_testBit]
  by_cases hj : j < 4
  · have hen2 : ¬ (cfg.P_EN = ⟨Port.C, 2 + j⟩) := by
      intro h
      apply hen
      rw [h]
      exact ⟨rfl, by simp, by simp; omega⟩
    have h8 : 2 + j < 8 := by omega
    simp only [hj, hen2, h8, decide_True, decide_False, Bool.true_and, Bool.not_false,
      Bool.and_true, Nat.le_add_right, Nat.add_sub_cancel_left]
    have hm : decide (2 + j = 0 ∨ 2 + j = 1 ∨ 2 + j = 6 ∨ 2 + j = 7) = false := by
      simp only [decide_eq_false_iff_not]
      omega
    rw [hm]
    simp
  · simp [hj]

/-- Bits 0 and 1 of `PORTC` after `lcd_send_nyble(data)`: unchanged, except that
the Enable pin's own bit is cleared. -/
theorem nyble_low_bits (cfg : Config) (data : Nat) (r : Regs) (i : Nat) (hi : i < 2) :
    (finalRegs r (nyble_ops cfg data) Port.C).testBit i =
      ((r Port.C).testBit i && !decide (cfg.P_EN = ⟨Port.C, i⟩)) := by
  rw [nyble_portc_testBit, testBit_mask, shl2_testBit]
  have h8 : i < 8 := by omega
  have h2 : ¬ (2 ≤ i) := by omega
  have hm : i = 0 ∨ i = 1 ∨ i = 6 ∨ i = 7 := by omega
  simp [h8, h2, hm]

/-- Bits 6 and 7 of `PORTC` after `lcd_send_nyble(data)`: the old bit or bit
`i - 2` of `data`, except that the Enable pin's own bit is cleared. -/
theorem nyble_high_bits (cfg : Config) (data : Nat) (r : Regs) (i : Nat)
    (hi : i = 6 ∨ i = 7) :
    (finalRegs r (nyble_ops cfg data) Port.C).testBit i =
      (((r Port.C).testBit i || data.testBit (i - 2)) && !decide (cfg.P_EN = ⟨Port.C, i⟩)) := by
  rw [nyble_portc_testBit, testBit_mask, shl2_testBit]
  have h8 : i < 8 := by omega
  have h2 : 2 ≤ i := by omega
  have hm : i = 0 ∨ i = 1 ∨ i = 6 ∨ i = 7 := by omega
  simp [h8, h2, hm]

theorem nyble_regs (cfg : Config) (data : Nat) (r : Regs) :
    (lcd_send_nyble cfg data (Machine.start r)).regs = finalRegs r (nyble_ops cfg (data % 256)) := by
  rw [lcd_send_nyble_eq, run_regs]
  rfl

theorem byte_regs (cfg : Config) (data : Nat) (r : Regs) :
    (lcd_send_byte cfg data (Machine.start r)).regs =
      finalRegs (finalRegs r (nyble_ops cfg ((data % 256) >>> 4 % 256)))
        (nyble_ops cfg (data % 256)) := by
  rw [lcd_send_byte_eq, run_regs]
  unfold byte_ops
  rw [finalRegs_cons, finalRegs_append, apply_call_byte]
  rfl

/-! ## Frame of `lcd_send_nyble` and `lcd_send_byte` -/

/-- C1, as amended: for every 4-bit value `v` and every prior content of the port
registers, after `lcd_send_nyble(v)` the data bus (bits 2..5 of `PORTC`) holds
`v`, each of the bits 0, 1, 6, 7 of `PORTC` other than the Enable pin's own bit
has the value it had before, and the Enable pin is left deasserted.  Enable is
assumed not to be wired to a data-bus bit. -/
theorem send_nyble_frame (cfg : Config) (v : Nat) (r : Regs) (hv : v < 16)
    (hen : ¬ onBus cfg.P_EN) :
    dataBus (lcd_send_nyble cfg v (Machine.start r)).regs = v ∧
    (∀ i ∈ [0, 1, 6, 7], cfg.P_EN ≠ ⟨Port.C, i⟩ →
      ((lcd_send_nyble cfg v (Machine.start r)).regs Port.C).testBit i
        = (r Port.C).testBit i) ∧
    pinLevel (lcd_send_nyble cfg v (Machine.start r)).regs cfg.P_EN = false := by
  have hv256 : v % 256 = v := Nat.mod_eq_of_lt (by omega)
  rw [nyble_regs, hv256]
  refine ⟨?_, ?_, nyble_level_en cfg v r⟩
  · rw [nyble_dataBus cfg v r hen]
    exact Nat.mod_eq_of_lt hv
  · intro i hi hne
    have hd : decide (cfg.P_EN = ⟨Port.C, i⟩) = false := by simp [hne]
    simp only [List.mem_cons, List.mem_singleton, List.mem_nil_iff, or_false] at hi
    rcases hi with h | h | h | h
    · rw [nyble_low_bits cfg v r i (by omega), hd]; simp
    · rw [nyble_low_bits cfg v r i (by omega), hd]; simp
    · rw [nyble_high_bits cfg v r i (Or.inl h), hd, testBit_of_lt_16 hv (by omega)]; simp
    · rw [nyble_high_bits cfg v r i (Or.inr h), hd, testBit_of_lt_16 hv (by omega)]; simp

/-- Witness for `send_nyble_frame`: the value 5 sent with every port bit set. -/
theorem send_nyble_frame_witness :
    5 < 16 ∧ ¬ onBus sampleConfig.P_EN ∧
    (dataBus (lcd_send_nyble sampleConfig 5 (Machine.start (allPorts 0xFF))).regs = 5 ∧
    (∀ i ∈ [0, 1, 6, 7], sampleConfig.P_EN ≠ ⟨Port.C, i⟩ →
      ((lcd_send_nyble sampleConfig 5 (Machine.start (allPorts 0xFF))).regs Port.C).testBit i
        = (allPorts 0xFF Port.C).testBit i) ∧
    pinLevel (lcd_send_nyble sampleConfig 5 (Machine.start (allPorts 0xFF))).regs
      sampleConfig.P_EN = false) :=
  ⟨by decide, by decide, send_nyble_frame sampleConfig 5 (allPorts 0xFF) (by decide) (by decide)⟩

/-- C1 as stated fails when Enable is a bit of `PORTC`: with Enable on bit 1 and
`PORTC = 0b00000010` before the call, `lcd_send_nyble(0)` leaves `PORTC = 0`, so
bit 1 has not kept its value.  The same happens whichever bit of `PORTC` carries
Enable: sending `0xF` with only that bit set beforehand, either the bit is one of
0, 1, 6, 7 and is cleared, or it is a bus bit and the bus does not read `0xF`. -/
theorem send_nyble_frame_counterexample :
    (lcd_send_nyble sampleConfig 0 (Machine.start (allPorts 0b00000010))).regs Port.C = 0 ∧
    ¬ (∀ i ∈ [0, 1, 6, 7],
      ((lcd_send_nyble sampleConfig 0 (Machine.start (allPorts 0b00000010))).regs Port.C).testBit i
        = (allPorts 0b00000010 Port.C).testBit i) ∧
    ∀ e ∈ [0, 1, 2, 3, 4, 5, 6, 7],
      ¬ (dataBus (lcd_send_nyble (enableOn e) 0xF (Machine.start (allPorts (1 <<< e)))).regs = 0xF ∧
        ∀ i ∈ [0, 1, 6, 7],
          ((lcd_send_nyble (enableOn e) 0xF (Machine.start (allPorts (1 <<< e)))).regs
              Port.C).testBit i
            = (allPorts (1 <<< e) Port.C).testBit i) := by
  decide

/-- C10, as amended: for every value `b` and every prior content of the port
registers, after `lcd_send_byte(b)` the data bus holds the low nybble `b & 0xF`,
each of the bits 0 and 1 of `PORTC` other than the Enable pin's own bit has the
value it had before, and the Enable pin is left deasserted.  Enable is assumed
not to be wired to a data-bus bit. -/
theorem send_byte_frame (cfg : Config) (b : Nat) (r : Regs) (hen : ¬ onBus cfg.P_EN) :
    dataBus (lcd_send_byte cfg b (Machine.start r)).regs = b &&& 0xF ∧
    (∀ i ∈ [0, 1], cfg.P_EN ≠ ⟨Port.C, i⟩ →
      ((lcd_send_byte cfg b (Machine.start r)).regs Port.C).testBit i
        = (r Port.C).testBit i) ∧
    pinLevel (lcd_send_byte cfg b (Machine.start r)).regs cfg.P_EN = false := by
  rw [byte_regs]
  refine ⟨?_, ?_, nyble_level_en cfg _ _⟩
  · rw [nyble_dataBus cfg _ _ hen, and_15_eq_mod]
    exact Nat.mod_mod_of_dvd b (by norm_num : 16 ∣ 256)
  · intro i hi hne
    have hd : decide (cfg.P_EN = ⟨Port.C, i⟩) = false := by simp [hne]
    have hi2 : i < 2 := by
      simp only [List.mem_cons, List.mem_singleton, List.mem_nil_iff, or_false] at hi
      omega
    rw [nyble_low_bits cfg _ _ i hi2, nyble_low_bits cfg _ _ i hi2, hd]
    simp

/-- Witness for `send_byte_frame`: the byte `0x5A` sent with every port bit set. -/
theorem send_byte_frame_witness :
    ¬ onBus sampleConfig.P_EN ∧
    (dataBus (lcd_send_byte sampleConfig 0x5A (Machine.start (allPorts 0xFF))).regs
        = 0x5A &&& 0xF ∧
    (∀ i ∈ [0, 1], sampleConfig.P_EN ≠ ⟨Port.C, i⟩ →
      ((lcd_send_byte sampleConfig 0x5A (Machine.start (allPorts 0xFF))).regs Port.C).testBit i
        = (allPorts 0xFF Port.C).testBit i) ∧
    pinLevel (lcd_send_byte sampleConfig 0x5A (Machine.start (allPorts 0xFF))).regs
      sampleConfig.P_EN = false) :=
  ⟨by decide, send_byte_frame sampleConfig 0x5A (allPorts 0xFF) (by decide)⟩

/-- C10 as stated fails: with Enable on bit 1 of `PORTC` and `PORTC = 0b00000010`
before the call, `lcd_send_byte(0x30)` leaves `PORTC = 0b11000000`.  Bit 1 has
been cleared by the Enable pulse, and bits 6 and 7 have been set from bits 4 and
5 of the byte; `lcd_send_byte(0x00)` from the same state leaves them clear. -/
theorem send_byte_frame_counterexample :
    (lcd_send_byte sampleConfig 0x30 (Machine.start (allPorts 0b00000010))).regs Port.C
      = 0b11000000 ∧
    (lcd_send_byte sampleConfig 0x00 (Machine.start (allPorts 0b00000010))).regs Port.C = 0 ∧
    ¬ (∀ i ∈ [0, 1, 6, 7],
      ((lcd_send_byte sampleConfig 0x30 (Machine.start (allPorts 0b00000010))).regs Port.C).testBit i
        = (allPorts 0b00000010 Port.C).testBit i) := by
  decide

/-! ## Call sequences -/

theorem nybleCalls_append (a b : List Op) :
    nybleCalls (a ++ b) = nybleCalls a ++ nybleCalls b := by
  induction a with
  | nil => rfl
  | cons o rest ih => cases o <;> simp [nybleCalls, ih]

theorem byteCalls_append (a b : List Op) :
    byteCalls (a ++ b) = byteCalls a ++ byteCalls b := by
  induction a with
  | nil => rfl
  | cons o rest ih => cases o <;> simp [byteCalls, ih]

theorem nybleCalls_nyble_ops (cfg : Config) (d : Nat) : nybleCalls (nyble_ops cfg d) = [d] := rfl

theorem byteCalls_nyble_ops (cfg : Config) (d : Nat) : byteCalls (nyble_ops cfg d) = [] := rfl

theorem nybleCalls_byte_ops (cfg : Config) (d : Nat) :
    nybleCalls (byte_ops cfg d) = [(d >>> 4) % 256, d] := rfl

theorem byteCalls_byte_ops (cfg : Config) (d : Nat) : byteCalls (byte_ops cfg d) = [d] := rfl

theorem or_mod_256 {a b : Nat} (ha : a < 256) (hb : b < 256) : (a ||| b) % 256 = a ||| b :=
  Nat.mod_eq_of_lt (Nat.or_lt_two_pow (n := 8) ha hb)

/-- The calls `lcd_send_byte(b)` makes to `lcd_send_nyble`: one with `b >> 4`,
then one with `b` itself. -/
theorem send_byte_nyble_calls (cfg : Config) (b : Nat) (m : Machine) :
    nybleCalls (lcd_send_byte cfg b m).log
      = nybleCalls m.log ++ [((b % 256) >>> 4) % 256, b % 256] := by
  rw [lcd_send_byte_eq, run_log, nybleCalls_append, nybleCalls_byte_ops]

/-- C2 at the byte `0x30`: `lcd_send_byte(0x30)` calls `lcd_send_nyble(0x3)` and
then `lcd_send_nyble(0x30)`, not `lcd_send_nyble(0x30 & 0xF)`, and the second
call stores `0x30 << 2` into `PORTC`, setting its bits 6 and 7, wherever the
control pins are wired. -/
theorem send_byte_calls_at_0x30 :
    nybleCalls (lcd_send_byte sampleConfig 0x30 (Machine.start (allPorts 0))).log
      = [0x3, 0x30] ∧
    [0x30 >>> 4, 0x30 &&& 0xF] = [0x3, 0x0] ∧
    (lcd_send_byte sampleConfig 0x30 (Machine.start (allPorts 0))).regs Port.C = 0b11000000 ∧
    (lcd_send_byte offPortConfig 0x30 (Machine.start (allPorts 0))).regs Port.C
      = 0b11000000 := by
  decide

theorem lcd_clear_eq (cfg : Config) (m : Machine) : lcd_clear cfg m = run (clear_ops cfg) m := by
  simp [lcd_clear, clear_ops, RESET, _delay_ms, lcd_send_byte_eq, run_cons, run_append, run_nil]

theorem lcd_home_eq (cfg : Config) (m : Machine) : lcd_home cfg m = run (home_ops cfg) m := by
  simp [lcd_home, home_ops, RESET, _delay_ms, lcd_send_byte_eq, run_cons, run_append, run_nil]

theorem lcd_init_eq (cfg : Config) (m : Machine) : lcd_init cfg m = run (init_ops cfg) m := by
  simp [lcd_init, init_ops, RESET, _delay_ms, _delay_us, lcd_send_byte_eq, lcd_send_nyble_eq,
    lcd_clear_eq, lcd_home_eq, run_cons, run_append, run_nil]

/-- C3: for 8-bit opcode constants, the `lcd_send_nyble` calls `lcd_init` makes
before its first `lcd_send_byte` call are exactly 0x3, 0x3, 0x3, 0x2, and its
`lcd_send_byte` calls are, in order, Function Set | display-lines, Display
Control | display-on, Entry Mode | increment-cursor, Clear and Home. -/
theorem lcd_init_sequence (cfg : Config) (r : Regs) (h : cfg.byteOpcodes) :
    nybleCalls (beforeFirstByte (lcd_init cfg (Machine.start r)).log) = [0x3, 0x3, 0x3, 0x2] ∧
    byteCalls (lcd_init cfg (Machine.start r)).log =
      [cfg.LCD_FUNCTION_SET ||| cfg.LCD_DISPLAY_LINES,
       cfg.LCD_DISPLAY_CONTROL ||| cfg.LCD_DISPLAY_ON,
       cfg.LCD_ENTRY_MODE ||| cfg.LCD_INC_CURSOR,
       cfg.LCD_CLEAR, cfg.LCD_HOME] := by
  obtain ⟨hc, hh, hem, hic, hdc, hdo, hfs, hdl, -, -, -⟩ := h
  rw [lcd_init_eq, run_log]
  constructor
  · simp [Machine.start, init_ops, nyble_ops, pulse_ops, byte_ops, beforeFirstByte, isByteCall,
      nybleCalls, List.takeWhile]
  · simp [Machine.start, init_ops, clear_ops, home_ops, byteCalls_append, byteCalls_nyble_ops,
      byteCalls_byte_ops, byteCalls, or_mod_256 hfs hdl, or_mod_256 hdc hdo, or_mod_256 hem hic,
      Nat.mod_eq_of_lt hc, Nat.mod_eq_of_lt hh]

/-- Witness for `lcd_init_sequence`: the HD44780 opcodes. -/
theorem lcd_init_sequence_witness :
    sampleConfig.byteOpcodes ∧
    (nybleCalls (beforeFirstByte (lcd_init sampleConfig (Machine.start (allPorts 0))).log)
        = [0x3, 0x3, 0x3, 0x2] ∧
    byteCalls (lcd_init sampleConfig (Machine.start (allPorts 0))).log =
      [sampleConfig.LCD_FUNCTION_SET ||| sampleConfig.LCD_DISPLAY_LINES,
       sampleConfig.LCD_DISPLAY_CONTROL ||| sampleConfig.LCD_DISPLAY_ON,
       sampleConfig.LCD_ENTRY_MODE ||| sampleConfig.LCD_INC_CURSOR,
       sampleConfig.LCD_CLEAR, sampleConfig.LCD_HOME]) :=
  ⟨by decide, lcd_init_sequence sampleConfig (allPorts 0) (by decide)⟩

/-! ## `lcd_cursor_down` -/

theorem cursor_down_loop_eq (cfg : Config) (n : Nat) :
    ∀ (i : Nat) (m : Machine), i + n = 40 →
      lcd_cursor_down_loop cfg i m =
        run (List.replicate n
          (byte_ops cfg ((cfg.LCD_SHIFT ||| cfg.LCD_SHIFT_RIGHT) % 256))).flatten m := by
  induction n with
  | zero =>
    intro i m h
    rw [lcd_cursor_down_loop]
    have hi : ¬ i < 40 := by omega
    simp [hi, run_nil]
  | succ k ih =>
    intro i m h
    rw [lcd_cursor_down_loop]
    have hi : i < 40 := by omega
    have hmod : (i + 1) % 256 = i + 1 := Nat.mod_eq_of_lt (by omega)
    rw [if_pos hi, hmod, ih (i + 1) _ (by omega), lcd_send_byte_eq, List.replicate_succ,
      List.flatten_cons, run_append]

theorem lcd_cursor_down_eq (cfg : Config) (m : Machine) :
    lcd_cursor_down cfg m =
      run (.reset cfg.P_RS :: (List.replicate 40
        (byte_ops cfg ((cfg.LCD_SHIFT ||| cfg.LCD_SHIFT_RIGHT) % 256))).flatten) m := by
  rw [run_cons, ← cursor_down_loop_eq cfg 40 0 _ (by omega)]
  rfl

theorem byteCalls_replicate (cfg : Config) (d n : Nat) :
    byteCalls (List.replicate n (byte_ops cfg d)).flatten = List.replicate n d := by
  induction n with
  | zero => rfl
  | succ k ih =>
    rw [List.replicate_succ, List.flatten_cons, byteCalls_append, ih, byteCalls_byte_ops]
    rfl

/-- C5: for 8-bit opcodes with a direction bit that `LCD_SHIFT` does not already
contain, `lcd_cursor_down` executes `RESET(P_RS)` followed by forty runs of
`lcd_send_byte(LCD_SHIFT | LCD_SHIFT_RIGHT)` and nothing else: it makes exactly
forty `lcd_send_byte` calls, all with that value and none with plain
`LCD_SHIFT`. -/
theorem cursor_down_shifts (cfg : Config) (r : Regs)
    (hs : cfg.LCD_SHIFT < 256) (hr : cfg.LCD_SHIFT_RIGHT < 256)
    (hne : cfg.LCD_SHIFT ||| cfg.LCD_SHIFT_RIGHT ≠ cfg.LCD_SHIFT) :
    (lcd_cursor_down cfg (Machine.start r)).log =
      .reset cfg.P_RS ::
        (List.replicate 40 (byte_ops cfg (cfg.LCD_SHIFT ||| cfg.LCD_SHIFT_RIGHT))).flatten ∧
    byteCalls (lcd_cursor_down cfg (Machine.start r)).log =
      List.replicate 40 (cfg.LCD_SHIFT ||| cfg.LCD_SHIFT_RIGHT) ∧
    (byteCalls (lcd_cursor_down cfg (Machine.start r)).log).length = 40 ∧
    cfg.LCD_SHIFT ∉ byteCalls (lcd_cursor_down cfg (Machine.start r)).log := by
  have hlog : (lcd_cursor_down cfg (Machine.start r)).log =
      .reset cfg.P_RS ::
        (List.replicate 40 (byte_ops cfg (cfg.LCD_SHIFT ||| cfg.LCD_SHIFT_RIGHT))).flatten := by
    rw [lcd_cursor_down_eq, run_log, or_mod_256 hs hr]
    rfl
  have hcalls : byteCalls (lcd_cursor_down cfg (Machine.start r)).log =
      List.replicate 40 (cfg.LCD_SHIFT ||| cfg.LCD_SHIFT_RIGHT) := by
    rw [hlog]
    exact byteCalls_replicate cfg _ 40
  refine ⟨hlog, hcalls, ?_, ?_⟩
  · rw [hcalls, List.length_replicate]
  · rw [hcalls]
    intro hmem
    exact hne (List.eq_of_mem_replicate hmem).symm

/-- Witness for `cursor_down_shifts`: the HD44780 opcodes `0x10` and `0x04`. -/
theorem cursor_down_shifts_witness :
    sampleConfig.LCD_SHIFT < 256 ∧ sampleConfig.LCD_SHIFT_RIGHT < 256 ∧
    sampleConfig.LCD_SHIFT ||| sampleConfig.LCD_SHIFT_RIGHT ≠ sampleConfig.LCD_SHIFT ∧
    byteCalls (lcd_cursor_down sampleConfig (Machine.start (allPorts 0))).log =
      List.replicate 40 0x14 :=
  ⟨by decide, by decide, by decide,
    (cursor_down_shifts sampleConfig (allPorts 0) (by decide) (by decide) (by decide)).2.1⟩

/-! ## Delays of `lcd_clear` and `lcd_home` -/

theorem totalDelay_append (a b : List Op) : totalDelay (a ++ b) = totalDelay a + totalDelay b := by
  simp [totalDelay, List.map_append, List.sum_append]

theorem totalDelay_cons (o : Op) (l : List Op) : totalDelay (o :: l) = o.micros + totalDelay l := by
  simp [totalDelay]

theorem totalDelay_nyble_ops (cfg : Config) (d : Nat) :
    totalDelay (nyble_ops cfg d) = cfg.LCD_SEND_DELAY := by
  simp [totalDelay, nyble_ops, pulse_ops, Op.micros]

theorem totalDelay_byte_ops (cfg : Config) (d : Nat) :
    totalDelay (byte_ops cfg d) = 2 * cfg.LCD_SEND_DELAY := by
  unfold byte_ops
  rw [totalDelay_cons, totalDelay_append, totalDelay_nyble_ops, totalDelay_nyble_ops]
  simp only [Op.micros]
  ring

theorem totalDelay_clear (cfg : Config) (r : Regs) :
    totalDelay (lcd_clear cfg (Machine.start r)).log
      = 2 * cfg.LCD_SEND_DELAY + 1000 * cfg.LCD_CMD_DELAY := by
  rw [lcd_clear_eq, run_log]
  simp only [Machine.start, List.nil_append, clear_ops]
  rw [totalDelay_cons, totalDelay_append, totalDelay_byte_ops]
  simp [totalDelay, Op.micros]

theorem totalDelay_home (cfg : Config) (r : Regs) :
    totalDelay (lcd_home cfg (Machine.start r)).log
      = 2 * cfg.LCD_SEND_DELAY + 1000 * cfg.LCD_CMD_DELAY := by
  rw [lcd_home_eq, run_log]
  simp only [Machine.start, List.nil_append, home_ops]
  rw [totalDelay_cons, totalDelay_append, totalDelay_byte_ops]
  simp [totalDelay, Op.micros]

theorem totalDelay_cursor_left (cfg : Config) (r : Regs) :
    totalDelay (lcd_cursor_left cfg (Machine.start r)).log = 2 * cfg.LCD_SEND_DELAY := by
  simp only [lcd_cursor_left, RESET, emit_eq_run, lcd_send_byte_eq, run_log, Machine.start,
    List.nil_append]
  rw [totalDelay_append, totalDelay_byte_ops]
  simp [totalDelay, Op.micros]

/-- C8, as amended: one call of `lcd_clear` and one call of `lcd_home` block for
the same total time, two nyble pulses of `LCD_SEND_DELAY` microseconds and one
settle delay of `LCD_CMD_DELAY` milliseconds; that is longer, by exactly the
settle delay, than a command without one such as `lcd_cursor_left`. -/
theorem clear_home_delay (cfg : Config) (r r' : Regs) :
    totalDelay (lcd_clear cfg (Machine.start r)).log
      = totalDelay (lcd_home cfg (Machine.start r')).log ∧
    totalDelay (lcd_clear cfg (Machine.start r)).log
      = 2 * cfg.LCD_SEND_DELAY + 1000 * cfg.LCD_CMD_DELAY ∧
    totalDelay (lcd_clear cfg (Machine.start r)).log
      = totalDelay (lcd_cursor_left cfg (Machine.start r')).log + 1000 * cfg.LCD_CMD_DELAY := by
  rw [totalDelay_clear, totalDelay_home, totalDelay_cursor_left]
  exact ⟨rfl, rfl, rfl⟩

/-- C8 as stated fails: with a 100 us pulse delay and a 2 ms command delay both
`lcd_clear` and `lcd_home` block for 2200 us, so the delay of `lcd_clear` is not
strictly greater; nor is it for any other configuration. -/
theorem clear_home_delay_counterexample :
    totalDelay (lcd_clear sampleConfig (Machine.start (allPorts 0))).log = 2200 ∧
    totalDelay (lcd_home sampleConfig (Machine.start (allPorts 0))).log = 2200 ∧
    ¬ (totalDelay (lcd_clear sampleConfig (Machine.start (allPorts 0))).log
        > totalDelay (lcd_home sampleConfig (Machine.start (allPorts 0))).log) ∧
    ¬ ∃ (cfg : Config) (r r' : Regs),
      totalDelay (lcd_clear cfg (Machine.start r)).log
        > totalDelay (lcd_home cfg (Machine.start r')).log := by
  refine ⟨?_, ?_, ?_, ?_⟩
  · rw [totalDelay_clear]; norm_num [sampleConfig]
  · rw [totalDelay_home]; norm_num [sampleConfig]
  · rw [totalDelay_clear, totalDelay_home]; exact lt_irrefl _
  · rintro ⟨cfg, r, r', h⟩
    rw [totalDelay_clear, totalDelay_home] at h
    exact lt_irrefl _ h

/-! ## The level of a pin along a run -/

theorem states_cons (r : Regs) (o : Op) (l : List Op) :
    states r (o :: l) = o.apply r :: states (o.apply r) l := rfl

theorem states_append (r : Regs) (a b : List Op) :
    states r (a ++ b) = states r a ++ states (finalRegs r a) b := by
  induction a generalizing r with
  | nil => rfl
  | cons o rest ih => simp [states, finalRegs_cons, ih]

theorem keepsLevel_apply (q : Pin) (lvl : Bool) (o : Op) (r : Regs)
    (hk : keepsLevel q lvl o) (h8 : lvl = true → q.bit < 8) (h : pinLevel r q = lvl) :
    pinLevel (o.apply r) q = lvl := by
  unfold pinLevel at h ⊢
  cases o with
  | set p =>
    have hpq : p ≠ q := hk
    rw [apply_set_testBit]
    by_cases hport : q.port = p.port
    · have hbit : ¬ (p.bit = q.bit) := by
        intro hb
        apply hpq
        cases p; cases q; simp_all
      cases lvl <;> simp_all
    · simp [hport, h]
  | reset p =>
    have hpq : p ≠ q := hk
    rw [apply_reset_testBit]
    by_cases hport : q.port = p.port
    · have hbit : ¬ (p.bit = q.bit) := by
        intro hb
        apply hpq
        cases p; cases q; simp_all
      cases lvl <;> simp_all
    · simp [hport, h]
  | portc_and k =>
    rw [apply_and_testBit]
    by_cases hport : q.port = Port.C
    · have hk2 : lvl = true → k.testBit q.bit = true := hk hport
      cases lvl <;> simp_all
    · simp [hport, h]
  | portc_or k =>
    rw [apply_or_testBit]
    by_cases hport : q.port = Port.C
    · have hk2 : lvl = false → (k % 256).testBit q.bit = false := hk hport
      rw [testBit_mod_256] at hk2
      cases lvl <;> simp_all
    · simp [hport, h]
  | delay_us t => exact h
  | delay_ms t => exact h
  | call_send_nyble d => exact h
  | call_send_byte d => exact h

/-- A pin keeps its level through every state of a run whose steps all keep it. -/
theorem states_keep (q : Pin) (lvl : Bool) (ops : List Op) (h8 : lvl = true → q.bit < 8)
    (hk : ∀ o ∈ ops, keepsLevel q lvl o) :
    ∀ (r : Regs), pinLevel r q = lvl → ∀ st ∈ states r ops, pinLevel st q = lvl := by
  induction ops with
  | nil => intro r _ st hst; simp [states] at hst
  | cons o rest ih =>
    intro r h st hst
    have ho : pinLevel (o.apply r) q = lvl :=
      keepsLevel_apply q lvl o r (hk o (List.mem_cons_self _ _)) h8 h
    simp only [states, List.mem_cons] at hst
    rcases hst with hst | hst
    · rw [hst]; exact ho
    · exact ih (fun o' ho' => hk o' (List.mem_cons_of_mem _ ho')) _ ho st hst

theorem mask_testBit_of_free {q : Pin} (hport : q.port = Port.C) (hbus : ¬ onBus q)
    (h8 : q.bit < 8) : (0b11000011 : Nat).testBit q.bit = true := by
  rw [testBit_mask]
  simp only [decide_eq_true_eq]
  have : ¬ (2 ≤ q.bit ∧ q.bit ≤ 5) := fun h => hbus ⟨hport, h⟩
  omega

/-- The steps of `lcd_send_nyble(data)` keep pin `q` at `lvl` when `q` is neither
Enable nor a bus bit and, for a low `q`, the value stored does not reach it. -/
theorem nyble_ops_keep (cfg : Config) (data : Nat) (q : Pin) (lvl : Bool)
    (hen : cfg.P_EN ≠ q) (hbus : ¬ onBus q) (h8 : lvl = true → q.bit < 8)
    (hor : q.port = Port.C → lvl = false → ((data <<< 2) % 256).testBit q.bit = false) :
    ∀ o ∈ nyble_ops cfg data, keepsLevel q lvl o := by
  intro o ho
  simp only [nyble_ops, pulse_ops, List.cons_append, List.nil_append, List.mem_cons,
    List.mem_singleton, List.mem_nil_iff, or_false] at ho
  rcases ho with h | h | h | h | h | h | h <;> subst h
  · trivial
  · intro hport hl
    exact mask_testBit_of_free hport hbus (h8 hl)
  · exact hor
  · exact hen
  · exact hen
  · exact hen
  · trivial

theorem nyble_value_misses_free (d : Nat) (hd : d < 16) {q : Pin} (hport : q.port = Port.C)
    (hbus : ¬ onBus q) : ((d <<< 2) % 256).testBit q.bit = false := by
  rw [testBit_mod_256, shl2_testBit]
  have hnot : ¬ (2 ≤ q.bit ∧ q.bit ≤ 5) := fun h => hbus ⟨hport, h⟩
  by_cases h2 : 2 ≤ q.bit
  · have h6 : 4 ≤ q.bit - 2 := by omega
    rw [testBit_of_lt_16 hd h6]
    simp
  · simp [h2]

/-- The steps of `lcd_send_byte(data)` keep pin `q` at `lvl` under the same
conditions; only the second nyble, sent unmasked, can reach beyond the bus. -/
theorem byte_ops_keep (cfg : Config) (data : Nat) (q : Pin) (lvl : Bool) (hd : data < 256)
    (hen : cfg.P_EN ≠ q) (hbus : ¬ onBus q) (h8 : lvl = true → q.bit < 8)
    (hor : lvl = false → ¬ reaches data q) :
    ∀ o ∈ byte_ops cfg data, keepsLevel q lvl o := by
  intro o ho
  simp only [byte_ops, List.mem_cons, List.mem_append] at ho
  rcases ho with h | h | h
  · subst h; trivial
  · refine nyble_ops_keep cfg _ q lvl hen hbus h8 ?_ o h
    intro hport _
    have hlt : (data >>> 4) % 256 < 16 := by
      rw [Nat.shiftRight_eq_div_pow]
      omega
    exact nyble_value_misses_free _ hlt hport hbus
  · refine nyble_ops_keep cfg _ q lvl hen hbus h8 ?_ o h
    intro hport hl
    have hnr := hor hl
    unfold reaches at hnr
    rw [Nat.mod_eq_of_lt hd] at hnr
    simpa [hport] using hnr

theorem touches_nyble_ops (cfg : Config) (data : Nat) (q : Pin) (hen : cfg.P_EN ≠ q) :
    ∀ o ∈ nyble_ops cfg data, touches q o = false := by
  intro o ho
  simp only [nyble_ops, pulse_ops, List.cons_append, List.nil_append, List.mem_cons,
    List.mem_singleton, List.mem_nil_iff, or_false] at ho
  rcases ho with h | h | h | h | h | h | h <;> subst h <;> simp [touches, hen]

theorem touches_byte_ops (cfg : Config) (data : Nat) (q : Pin) (hen : cfg.P_EN ≠ q) :
    ∀ o ∈ byte_ops cfg data, touches q o = false := by
  intro o ho
  simp only [byte_ops, List.mem_cons, List.mem_append] at ho
  rcases ho with h | h | h
  · subst h; rfl
  · exact touches_nyble_ops cfg _ q hen o h
  · exact touches_nyble_ops cfg _ q hen o h

theorem reset_level (p : Pin) (r : Regs) : pinLevel ((Op.reset p).apply r) p = false := by
  simp [pinLevel, apply_reset_testBit]

theorem set_level (p : Pin) (r : Regs) (h8 : p.bit < 8) :
    pinLevel ((Op.set p).apply r) p = true := by
  simp [pinLevel, apply_set_testBit, h8]

/-! ## Register-Select during `lcd_clear` and `lcd_home` -/

theorem not_reaches_mod {data : Nat} {q : Pin} (h : ¬ reaches data q) :
    ¬ reaches (data % 256) q := by
  unfold reaches at h ⊢
  rwa [Nat.mod_mod]

/-- A command routine `RESET(P_RS); lcd_send_byte(op); _delay_ms(t)` has
Register-Select low in every state from its first step on. -/
theorem command_rs_low (cfg : Config) (op : Nat) (t : ℚ) (r : Regs)
    (hne : cfg.P_RS ≠ cfg.P_EN) (hbus : ¬ onBus cfg.P_RS) (hop : ¬ reaches op cfg.P_RS) :
    ∀ st ∈ states r (.reset cfg.P_RS :: (byte_ops cfg (op % 256) ++ [.delay_ms t])),
      pinLevel st cfg.P_RS = false := by
  intro st hst
  rw [states_cons, List.mem_cons] at hst
  rcases hst with hst | hst
  · rw [hst]
    exact reset_level _ _
  · refine states_keep cfg.P_RS false _ (fun h => by cases h) ?_ _ (reset_level _ r) st hst
    intro o ho
    rw [List.mem_append] at ho
    rcases ho with ho | ho
    · exact byte_ops_keep cfg (op % 256) cfg.P_RS false (Nat.mod_lt _ (by norm_num))
        (fun h => hne h.symm) hbus (fun h => by cases h) (fun _ => not_reaches_mod hop) o ho
    · simp only [List.mem_singleton] at ho
      subst ho
      trivial

theorem command_no_touch (cfg : Config) (op : Nat) (t : ℚ) (hne : cfg.P_RS ≠ cfg.P_EN) :
    ∀ o ∈ byte_ops cfg (op % 256) ++ [Op.delay_ms t], touches cfg.P_RS o = false := by
  intro o ho
  rw [List.mem_append] at ho
  rcases ho with ho | ho
  · exact touches_byte_ops cfg _ _ (fun h => hne h.symm) o ho
  · simp only [List.mem_singleton] at ho
    subst ho
    rfl

/-- C9: when Register-Select is a line of its own (not the Enable pin, not a
data-bus bit) and the stores of the Clear and Home opcodes do not reach its bit,
then, whatever the prior port state, `lcd_clear` and `lcd_home` each start with
`RESET(P_RS)`, no later step of theirs sets or resets Register-Select, and
Register-Select reads deasserted in every state from that first step until the
routine returns, hence at every Enable pulse of the instruction send. -/
theorem clear_home_rs_low (cfg : Config) (r : Regs)
    (hne : cfg.P_RS ≠ cfg.P_EN) (hbus : ¬ onBus cfg.P_RS)
    (hc : ¬ reaches cfg.LCD_CLEAR cfg.P_RS) (hh : ¬ reaches cfg.LCD_HOME cfg.P_RS) :
    ((lcd_clear cfg (Machine.start r)).log.head? = some (.reset cfg.P_RS) ∧
      (∀ o ∈ (lcd_clear cfg (Machine.start r)).log.tail, touches cfg.P_RS o = false) ∧
      ∀ st ∈ states r (lcd_clear cfg (Machine.start r)).log, pinLevel st cfg.P_RS = false) ∧
    ((lcd_home cfg (Machine.start r)).log.head? = some (.reset cfg.P_RS) ∧
      (∀ o ∈ (lcd_home cfg (Machine.start r)).log.tail, touches cfg.P_RS o = false) ∧
      ∀ st ∈ states r (lcd_home cfg (Machine.start r)).log, pinLevel st cfg.P_RS = false) := by
  have hcl : (lcd_clear cfg (Machine.start r)).log = clear_ops cfg := by
    rw [lcd_clear_eq, run_log]; rfl
  have hho : (lcd_home cfg (Machine.start r)).log = home_ops cfg := by
    rw [lcd_home_eq, run_log]; rfl
  rw [hcl, hho]
  unfold clear_ops home_ops
  exact ⟨⟨rfl, command_no_touch cfg _ _ hne, command_rs_low cfg _ _ r hne hbus hc⟩,
    ⟨rfl, command_no_touch cfg _ _ hne, command_rs_low cfg _ _ r hne hbus hh⟩⟩

/-- Witness for `clear_home_rs_low`: Register-Select on `PORTC` bit 0, Enable on
bit 1, every port bit set beforehand. -/
theorem clear_home_rs_low_witness :
    sampleConfig.P_RS ≠ sampleConfig.P_EN ∧ ¬ onBus sampleConfig.P_RS ∧
    ¬ reaches sampleConfig.LCD_CLEAR sampleConfig.P_RS ∧
    ¬ reaches sampleConfig.LCD_HOME sampleConfig.P_RS ∧
    (∀ st ∈ states (allPorts 0xFF) (lcd_clear sampleConfig (Machine.start (allPorts 0xFF))).log,
      pinLevel st sampleConfig.P_RS = false) ∧
    (∀ st ∈ states (allPorts 0xFF) (lcd_home sampleConfig (Machine.start (allPorts 0xFF))).log,
      pinLevel st sampleConfig.P_RS = false) :=
  ⟨by decide, by decide, by decide, by decide,
    (clear_home_rs_low sampleConfig (allPorts 0xFF) (by decide) (by decide) (by decide)
      (by decide)).1.2.2,
    (clear_home_rs_low sampleConfig (allPorts 0xFF) (by decide) (by decide) (by decide)
      (by decide)).2.2.2⟩

/-! ## `lcd_print` -/

theorem cstr_cons_zero (rest : List Nat) : cstr (0 :: rest) = [] := rfl

theorem cstr_cons_ne {c : Nat} (hc : c ≠ 0) (rest : List Nat) :
    cstr (c :: rest) = c :: cstr rest := by
  simp [cstr, List.takeWhile_cons, hc]

theorem cstr_subset (s : List Nat) : cstr s ⊆ s := List.takeWhile_subset _

theorem print_loop_eq (cfg : Config) (s : List Nat) (h0 : 0 ∈ s) (hb : ∀ c ∈ s, c < 256) :
    ∀ m : Machine,
      lcd_print_loop cfg s m = some (run ((cstr s).flatMap (byte_ops cfg)) m) := by
  induction s with
  | nil => simp at h0
  | cons c rest ih =>
    intro m
    by_cases hc : c = 0
    · subst hc
      simp [lcd_print_loop, cstr_cons_zero, run_nil]
    · have h0r : 0 ∈ rest := by
        rcases List.mem_cons.mp h0 with h | h
        · exact absurd h.symm hc
        · exact h
      have hbr : ∀ x ∈ rest, x < 256 := fun x hx => hb x (List.mem_cons_of_mem _ hx)
      have hc256 : c % 256 = c := Nat.mod_eq_of_lt (hb c (List.mem_cons_self _ _))
      rw [lcd_print_loop, if_pos hc, ih h0r hbr, lcd_send_byte_eq, hc256, cstr_cons_ne hc,
        List.flatMap_cons, run_append]

theorem byteCalls_flatMap (cfg : Config) (l : List Nat) :
    byteCalls (l.flatMap (byte_ops cfg)) = l := by
  induction l with
  | nil => rfl
  | cons c rest ih =>
    rw [List.flatMap_cons, byteCalls_append, ih, byteCalls_byte_ops]
    rfl

/-- C6: for every terminated sequence `s` of 8-bit characters, `lcd_print(s)`
returns; it executes `SET(P_RS)` once, as its first step, followed by the steps
of `lcd_send_byte(c)` for each character `c` before the first terminator, in
order, and nothing else; none of those later steps sets or resets Register-Select
(the pin being distinct from Enable); the bytes sent are the characters of `s`,
as many as its length; and when Register-Select is a pin of an 8-bit port that
is not a data-bus bit, it reads asserted in every state of the run. -/
theorem print_string (cfg : Config) (s : List Nat) (r : Regs)
    (h0 : 0 ∈ s) (hb : ∀ c ∈ s, c < 256) (hne : cfg.P_RS ≠ cfg.P_EN) :
    ∃ m : Machine, lcd_print cfg s (Machine.start r) = some m ∧
      m.log = .set cfg.P_RS :: (cstr s).flatMap (byte_ops cfg) ∧
      (∀ o ∈ (cstr s).flatMap (byte_ops cfg), touches cfg.P_RS o = false) ∧
      byteCalls m.log = cstr s ∧
      (byteCalls m.log).length = (cstr s).length ∧
      (¬ onBus cfg.P_RS → cfg.P_RS.bit < 8 →
        ∀ st ∈ states r m.log, pinLevel st cfg.P_RS = true) := by
  have hlog : (run ((cstr s).flatMap (byte_ops cfg)) (SET cfg.P_RS (Machine.start r))).log
      = .set cfg.P_RS :: (cstr s).flatMap (byte_ops cfg) := by
    rw [run_log]; rfl
  have hcalls : byteCalls (.set cfg.P_RS :: (cstr s).flatMap (byte_ops cfg)) = cstr s :=
    byteCalls_flatMap cfg (cstr s)
  refine ⟨run ((cstr s).flatMap (byte_ops cfg)) (SET cfg.P_RS (Machine.start r)),
    print_loop_eq cfg s h0 hb _, hlog, ?_, ?_, ?_, ?_⟩
  · intro o ho
    obtain ⟨c, -, hoc⟩ := List.mem_flatMap.mp ho
    exact touches_byte_ops cfg c _ (fun h => hne h.symm) o hoc
  · rw [hlog, hcalls]
  · rw [hlog, hcalls]
  · intro hbus h8 st hst
    rw [hlog, states_cons, List.mem_cons] at hst
    rcases hst with hst | hst
    · rw [hst]
      exact set_level _ _ h8
    · refine states_keep cfg.P_RS true _ (fun _ => h8) ?_ _ (set_level _ r h8) st hst
      intro o ho
      obtain ⟨c, hc, hoc⟩ := List.mem_flatMap.mp ho
      exact byte_ops_keep cfg c cfg.P_RS true (hb c (cstr_subset s hc))
        (fun h => hne h.symm) hbus (fun _ => h8) (fun h => by cases h) o hoc

/-- Witness for `print_string`: the string "AB" yields `lcd_send_byte('A')` then
`lcd_send_byte('B')` after a single `SET(P_RS)`. -/
theorem print_string_witness :
    (0 ∈ [0x41, 0x42, 0]) ∧ (∀ c ∈ [0x41, 0x42, 0], c < 256) ∧
    sampleConfig.P_RS ≠ sampleConfig.P_EN ∧
    ∃ m : Machine, lcd_print sampleConfig [0x41, 0x42, 0] (Machine.start (allPorts 0)) = some m ∧
      m.log = .set sampleConfig.P_RS ::
        (byte_ops sampleConfig 0x41 ++ byte_ops sampleConfig 0x42) ∧
      byteCalls m.log = [0x41, 0x42] ∧
      (byteCalls m.log).length = 2 :=
  ⟨by decide, by decide, by decide,
    (print_string sampleConfig [0x41, 0x42, 0] (allPorts 0) (by decide) (by decide)
      (by decide)).elim fun m h => ⟨m, h.1, h.2.1, h.2.2.2.1, h.2.2.2.2.1⟩⟩

/-! ## `lcd_print` of a `float` -/

theorem lcd_print_eq (cfg : Config) (s : List Nat) (r : Regs)
    (h0 : 0 ∈ s) (hb : ∀ c ∈ s, c < 256) :
    lcd_print cfg s (Machine.start r) =
      some (run ((cstr s).flatMap (byte_ops cfg)) (SET cfg.P_RS (Machine.start r))) :=
  print_loop_eq cfg s h0 hb _

theorem lcd_print_calls (cfg : Config) (s : List Nat) (r : Regs) (m : Machine)
    (h0 : 0 ∈ s) (hb : ∀ c ∈ s, c < 256) (hm : lcd_print cfg s (Machine.start r) = some m) :
    byteCalls m.log = cstr s := by
  rw [lcd_print_eq cfg s r h0 hb] at hm
  cases hm
  rw [run_log]
  exact byteCalls_flatMap cfg (cstr s)

theorem cstr_append_zero (t : List Nat) (ht : 0 ∉ t) : cstr (t ++ [0]) = t := by
  induction t with
  | nil => rfl
  | cons c rest ih =>
    have hc : c ≠ 0 := fun h => ht (h ▸ List.mem_cons_self _ _)
    have hr : 0 ∉ rest := fun h => ht (List.mem_cons_of_mem _ h)
    rw [List.cons_append, cstr_cons_ne hc, ih hr]

theorem dtostrf_3_14159 : dtostrf f3_14159 5 2 = [0x20, 0x33, 0x2E, 0x31, 0x34] := by
  decide

/-- C7, as amended: `lcd_print(3.14159f)` runs exactly as `lcd_print(" 3.14")`,
the five characters `dtostrf(f, 5, 2, buf)` writes for that value, a blank
followed by "3.14"; in general `lcd_print(f)` runs as `lcd_print` on whatever
text the formatter wrote when that text fits the buffer, and a text of at least
five 8-bit characters (the minimum width) without a terminator inside never
yields the byte sequence of the four-character "3.14". -/
theorem print_float_bytes (cfg : Config) (r : Regs) :
    lcd_print_float cfg dtostrf f3_14159 (Machine.start r)
      = lcd_print cfg [0x20, 0x33, 0x2E, 0x31, 0x34, 0] (Machine.start r) ∧
    (∀ (F : Type) (fmt : F → Int → Nat → List Nat) (f : F),
      (fmt f 5 2 ++ [0]).length ≤ 10 →
        lcd_print_float cfg fmt f (Machine.start r)
          = lcd_print cfg (fmt f 5 2 ++ [0]) (Machine.start r)) ∧
    (∀ (F : Type) (fmt : F → Int → Nat → List Nat) (f : F) (m m' : Machine),
      5 ≤ (fmt f 5 2).length → 0 ∉ fmt f 5 2 → (∀ c ∈ fmt f 5 2, c < 256) →
      lcd_print_float cfg fmt f (Machine.start r) = some m →
      lcd_print cfg [0x33, 0x2E, 0x31, 0x34, 0] (Machine.start r) = some m' →
        byteCalls m.log = fmt f 5 2 ∧ byteCalls m.log ≠ byteCalls m'.log) := by
  have hgen : ∀ (F : Type) (fmt : F → Int → Nat → List Nat) (f : F),
      (fmt f 5 2 ++ [0]).length ≤ 10 →
        lcd_print_float cfg fmt f (Machine.start r)
          = lcd_print cfg (fmt f 5 2 ++ [0]) (Machine.start r) := by
    intro F fmt f hfit
    unfold lcd_print_float
    simp only [hfit, if_true]
  refine ⟨?_, hgen, ?_⟩
  · rw [hgen FloatVal dtostrf f3_14159 (by rw [dtostrf_3_14159]; decide), dtostrf_3_14159]
    rfl
  · intro F fmt f m m' h5 hz hb hm hm'
    have hfit : (fmt f 5 2 ++ [0]).length ≤ 10 := by
      by_contra hlong
      unfold lcd_print_float at hm
      simp only [hlong, if_false] at hm
      cases hm
    rw [hgen F fmt f hfit] at hm
    have h0 : 0 ∈ fmt f 5 2 ++ [0] := List.mem_append_right _ (List.mem_singleton_self 0)
    have hb' : ∀ c ∈ fmt f 5 2 ++ [0], c < 256 := by
      intro c hc
      rcases List.mem_append.mp hc with h | h
      · exact hb c h
      · rw [List.mem_singleton.mp h]; decide
    have hcalls : byteCalls m.log = fmt f 5 2 := by
      rw [lcd_print_calls cfg _ r m h0 hb' hm, cstr_append_zero _ hz]
    have hcalls' : byteCalls m'.log = [0x33, 0x2E, 0x31, 0x34] :=
      lcd_print_calls cfg _ r m' (by decide) (by decide) hm'
    refine ⟨hcalls, ?_⟩
    rw [hcalls, hcalls']
    intro heq
    rw [heq] at h5
    simp at h5

/-- C7 as stated fails: `dtostrf` pads "3.14" to the minimum width 5, so
`lcd_print(3.14159f)` sends the five bytes of " 3.14" (a blank first), while
`lcd_print("3.14")` sends four. -/
theorem print_float_counterexample :
    dtostrf f3_14159 5 2 = [0x20, 0x33, 0x2E, 0x31, 0x34] ∧
    (lcd_print_float sampleConfig dtostrf f3_14159 (Machine.start (allPorts 0))).map
        (fun m => byteCalls m.log) = some [0x20, 0x33, 0x2E, 0x31, 0x34] ∧
    (lcd_print sampleConfig [0x33, 0x2E, 0x31, 0x34, 0] (Machine.start (allPorts 0))).map
        (fun m => byteCalls m.log) = some [0x33, 0x2E, 0x31, 0x34] ∧
    (lcd_print_float sampleConfig dtostrf f3_14159 (Machine.start (allPorts 0))).map
        (fun m => nybleCalls m.log)
      ≠ (lcd_print sampleConfig [0x33, 0x2E, 0x31, 0x34, 0] (Machine.start (allPorts 0))).map
        (fun m => nybleCalls m.log) := by
  decide

/-! ## Delays of the mode switch in `lcd_init` -/

/-- The delays that follow the first three `lcd_send_nyble` calls of `lcd_init`,
in microseconds. -/
theorem init_gaps (cfg : Config) (r : Regs) :
    (nybleGaps (lcd_init cfg (Machine.start r)).log).take 3 =
      [cfg.LCD_SEND_DELAY + 1000 * cfg.LCD_4BIT_DELAY,
       cfg.LCD_SEND_DELAY + cfg.LCD_4BIT_DELAY,
       cfg.LCD_SEND_DELAY + 1000 * cfg.LCD_4BIT_DELAY_FINAL] := by
  rw [lcd_init_eq, run_log]
  simp [Machine.start, init_ops, nyble_ops, pulse_ops, nybleGaps, delayUntilCall, Op.micros]

/-- C4, as amended: in `lcd_init` the delay that follows the first 0x3 nyble is
`LCD_4BIT_DELAY` milliseconds, the delay that follows the second is
`LCD_4BIT_DELAY` microseconds (the same constant, passed to `_delay_us`) and the
delay that follows the third is `LCD_4BIT_DELAY_FINAL` milliseconds, each after
the `LCD_SEND_DELAY` microseconds of the nyble's own pulse.  In microseconds: the
first is at least the second for a non-negative constant, and the first two are
both at least the third exactly when `LCD_4BIT_DELAY` is at least
`LCD_4BIT_DELAY_FINAL` and at least a thousand times `LCD_4BIT_DELAY_FINAL`. -/
theorem init_mode_switch_delays (cfg : Config) (r : Regs) :
    ∃ d1 d2 d3 : ℚ,
      (nybleGaps (lcd_init cfg (Machine.start r)).log).take 3 = [d1, d2, d3] ∧
      d1 = cfg.LCD_SEND_DELAY + 1000 * cfg.LCD_4BIT_DELAY ∧
      d2 = cfg.LCD_SEND_DELAY + cfg.LCD_4BIT_DELAY ∧
      d3 = cfg.LCD_SEND_DELAY + 1000 * cfg.LCD_4BIT_DELAY_FINAL ∧
      (0 ≤ cfg.LCD_4BIT_DELAY → d1 ≥ d2) ∧
      ((d1 ≥ d3 ∧ d2 ≥ d3) ↔
        (cfg.LCD_4BIT_DELAY_FINAL ≤ cfg.LCD_4BIT_DELAY ∧
          1000 * cfg.LCD_4BIT_DELAY_FINAL ≤ cfg.LCD_4BIT_DELAY)) := by
  refine ⟨_, _, _, init_gaps cfg r, rfl, rfl, rfl, ?_, ?_⟩
  · intro h
    show cfg.LCD_SEND_DELAY + cfg.LCD_4BIT_DELAY ≤ cfg.LCD_SEND_DELAY + 1000 * cfg.LCD_4BIT_DELAY
    linarith
  · constructor
    · rintro ⟨ha, hb⟩
      constructor <;> linarith
    · rintro ⟨ha, hb⟩
      constructor <;> linarith

/-- C4 as stated fails for delay constants of 5 (mode switch) and 1 (final) with a
100 us pulse delay: the delays after the three 0x3 nybles are 5100 us, 105 us
and 1100 us, so the second is shorter than the third. -/
theorem init_mode_switch_delays_counterexample :
    (nybleGaps (lcd_init sampleConfig (Machine.start (allPorts 0))).log).take 3
      = [5100, 105, 1100] ∧
    ¬ ((5100 : ℚ) ≥ 1100 ∧ (105 : ℚ) ≥ 1100) := by
  constructor
  · rw [init_gaps]
    norm_num [sampleConfig]
  · norm_num

end Lcd
